import Mathlib

/-!
Persistence layer: modmail archives and multi-panel targets.

A shallow embedding of `modmailarchive.go` and `multipaneltargets.go`.

The relational engine is modelled as an in-memory table: a table is the list
of its rows in physical order, a `WHERE` clause is a filter, `ORDER BY
"close_time" DESC` is a stable sort of the filtered rows, `LIMIT n` keeps the
first `n` rows, and a scalar subquery that selects no row is `NULL`, against
which every comparison fails.  Constraints written in the `Schema()` strings
(primary keys, foreign keys) are enforced by the insert operations.

Go values and column values are kept apart.  A `time.Time` is an instant in
nanoseconds together with a location; the `timestamp` column holds a wall
clock reading without time zone, in whole microseconds.  Writing a record
encodes its close time into the column, reading a row decodes the column into
a UTC time.  `uuid.UUID` is a natural number with `uuid.Nil = 0`, `uint64`
identifiers are natural numbers, and the `limit` argument ranges over the
non-negative values that `LIMIT` accepts.
-/

namespace uuid

/-- The identifier type `uuid.UUID` (128 bits), as a natural number. -/
abbrev UUID := Nat

/-- The nil identifier `uuid.Nil`: all bits zero. -/
def Nil : UUID := 0

end uuid

open uuid (UUID)

/-- Errors that the driver hands back to the caller. -/
inductive PgError where
  | ErrNoRows
  | scanFailure (code : Nat)
  | foreignKeyViolation
  deriving DecidableEq, Repr

/-- The Go type `time.Time`: an instant, in nanoseconds since the Unix epoch,
and a location, given by its offset from UTC in seconds (`time.UTC` has
offset 0).  The monotonic clock reading is left out. -/
structure Time where
  unixNano : Int
  offset : Int
  deriving DecidableEq, Repr

/-- The Go struct `ModmailArchive`. -/
structure ModmailArchive where
  Uuid : UUID
  GuildId : Nat
  UserId : Nat
  CloseTime : Time
  deriving DecidableEq, Repr

/-- The zero value of `ModmailArchive` (what `var archive ModmailArchive` holds). -/
def ModmailArchive.zero : ModmailArchive := ⟨uuid.Nil, 0, 0, ⟨0, 0⟩⟩

/-- One row of `modmail_archive`.  The column `close_time` has type `timestamp`:
a wall clock reading without time zone, in microseconds since the epoch. -/
structure ArchiveRow where
  uuid : UUID
  guild_id : Nat
  user_id : Nat
  close_time : Int
  deriving DecidableEq, Repr

/-- The table `modmail_archive`: its rows in physical order. -/
abbrev ModmailArchiveTable := List ArchiveRow

/-- The value that the driver writes into a `timestamp` column for a `time.Time`
argument: the wall clock reading of the time in its own location, cut to
whole microseconds. -/
def timestampEncode (t : Time) : Int :=
  (t.unixNano + t.offset * 1000000000) / 1000

/-- The `time.Time` that the driver reads from a `timestamp` column: the stored
wall clock reading, taken as a UTC time. -/
def timestampDecode (ts : Int) : Time := ⟨ts * 1000, 0⟩

/-- The row that `INSERT INTO modmail_archive(...) VALUES($1, $2, $3, $4)` builds
from the four arguments `archive.Uuid, archive.GuildId, archive.UserId,
archive.CloseTime`. -/
def ModmailArchive.toRow (archive : ModmailArchive) : ArchiveRow :=
  ⟨archive.Uuid, archive.GuildId, archive.UserId, timestampEncode archive.CloseTime⟩

/-- The record that a successful `Scan` of a row fills in. -/
def ArchiveRow.toArchive (row : ArchiveRow) : ModmailArchive :=
  ⟨row.uuid, row.guild_id, row.user_id, timestampDecode row.close_time⟩

/-- The schema constraint `"uuid" uuid NOT NULL UNIQUE, PRIMARY KEY("uuid")`. -/
def UniqueIds (m : ModmailArchiveTable) : Prop :=
  (m.map ArchiveRow.uuid).Nodup

instance (m : ModmailArchiveTable) : Decidable (UniqueIds m) := by
  unfold UniqueIds; infer_instance

/-- The clause `ORDER BY "close_time" DESC`, as a stable sort. -/
def orderByCloseTimeDesc (rows : List ArchiveRow) : List ArchiveRow :=
  rows.insertionSort (fun a b => b.close_time ≤ a.close_time)

/-- The scalar subquery
`(SELECT "close_time" FROM modmail_archive WHERE "uuid" = $c AND <scope> LIMIT 1)`:
the close time of the first row that has the cursor's id and lies in the
scope, `none` (SQL `NULL`) when there is no such row. -/
def anchorCloseTime (m : ModmailArchiveTable) (scope : ArchiveRow → Bool)
    (cursor : UUID) : Option Int :=
  (m.find? (fun r => decide (r.uuid = cursor) && scope r)).map ArchiveRow.close_time

/-- The condition `"close_time" > (subquery)`; not satisfied when the subquery is `NULL`. -/
def closeTimeGt (anchor : Option Int) (r : ArchiveRow) : Bool :=
  match anchor with
  | none => false
  | some t => decide (t < r.close_time)

/-- The condition `"close_time" < (subquery)`; not satisfied when the subquery is `NULL`. -/
def closeTimeLt (anchor : Option Int) (r : ArchiveRow) : Bool :=
  match anchor with
  | none => false
  | some t => decide (r.close_time < t)

/-- The call `m.Query(ctx, query, args...)` for a statement of the shape
`SELECT * from modmail_archive WHERE <cond> ORDER BY "close_time" DESC LIMIT <limit>`. -/
def Query (m : ModmailArchiveTable) (cond : ArchiveRow → Bool) (limit : Nat) :
    Except PgError (List ArchiveRow) :=
  .ok ((orderByCloseTimeDesc (m.filter cond)).take limit)

/-- The call `rows.Scan(&archive.Uuid, &archive.GuildId, &archive.UserId, &archive.CloseTime)`
on a fetched row of the table (all four columns are `NOT NULL`). -/
def Scan (row : ArchiveRow) : Except PgError ModmailArchive := .ok row.toArchive

/-- The loop `for rows.Next() { ... }` shared by `GetByGuild`, `GetByUser` and
`GetByMember`, over the decode outcome of each fetched row; the two
accumulators are the named results `archives` and `e`.  A `rows.Scan` that
fails closes the rows: the branch sets `e = err` and runs `continue`, and the
next `rows.Next()` is false, so the rows behind a failing row are not read. -/
def scanRows : List (Except PgError ModmailArchive) → List ModmailArchive → Option PgError →
    List ModmailArchive × Option PgError
  | [], archives, e => (archives, e)
  | .error err :: _, archives, _ => (archives, some err)
  | .ok archive :: rest, archives, e => scanRows rest (archives ++ [archive]) e

/-- The tail common to the three listing functions: the error check after
`Query`, then the row loop. -/
def readPage (res : Except PgError (List ArchiveRow)) : List ModmailArchive × Option PgError :=
  match res with
  | .error err => if err ≠ PgError.ErrNoRows then ([], some err) else ([], none)
  | .ok rows => scanRows (rows.map Scan) [] none

namespace ModmailArchiveTable

/-- The method `ModmailArchiveTable.Get`. -/
def Get (m : ModmailArchiveTable) (id : UUID) : ModmailArchive × Option PgError :=
  let scanned : Except PgError ModmailArchive :=
    match m.find? (fun r => decide (r.uuid = id)) with
    | some r => Scan r
    | none => .error PgError.ErrNoRows
  match scanned with
  | .ok archive => (archive, none)
  | .error err => if err ≠ PgError.ErrNoRows then (ModmailArchive.zero, some err)
                  else (ModmailArchive.zero, none)

/-- The method `ModmailArchiveTable.GetByGuild`. -/
def GetByGuild (m : ModmailArchiveTable) (guildId : Nat) (limit : Nat) (after before : UUID) :
    List ModmailArchive × Option PgError :=
  if after ≠ uuid.Nil then
    readPage (Query m (fun r => decide (r.guild_id = guildId) &&
      closeTimeGt (anchorCloseTime m (fun a => decide (a.guild_id = guildId)) after) r) limit)
  else if before ≠ uuid.Nil then
    readPage (Query m (fun r => decide (r.guild_id = guildId) &&
      closeTimeLt (anchorCloseTime m (fun a => decide (a.guild_id = guildId)) before) r) limit)
  else
    readPage (Query m (fun r => decide (r.guild_id = guildId)) limit)

/-- The method `ModmailArchiveTable.GetByUser`. -/
def GetByUser (m : ModmailArchiveTable) (userId : Nat) (limit : Nat) (after : UUID) :
    List ModmailArchive × Option PgError :=
  if after = uuid.Nil then
    readPage (Query m (fun r => decide (r.user_id = userId)) limit)
  else
    readPage (Query m (fun r => decide (r.user_id = userId) &&
      closeTimeLt (anchorCloseTime m (fun a => decide (a.user_id = userId)) after) r) limit)

/-- The method `ModmailArchiveTable.GetByMember`. -/
def GetByMember (m : ModmailArchiveTable) (guildId userId : Nat) (limit : Nat)
    (after before : UUID) : List ModmailArchive × Option PgError :=
  if after ≠ uuid.Nil then
    readPage (Query m (fun r => decide (r.guild_id = guildId) && decide (r.user_id = userId) &&
      closeTimeGt (anchorCloseTime m (fun a => decide (a.user_id = userId)) after) r) limit)
  else if before ≠ uuid.Nil then
    readPage (Query m (fun r => decide (r.guild_id = guildId) && decide (r.user_id = userId) &&
      closeTimeLt (anchorCloseTime m (fun a => decide (a.user_id = userId)) before) r) limit)
  else
    readPage (Query m (fun r => decide (r.guild_id = guildId) && decide (r.user_id = userId)) limit)

/-- The method `ModmailArchiveTable.Set`:
`INSERT INTO modmail_archive(...) VALUES(...) ON CONFLICT("uuid") DO NOTHING`. -/
def Set (m : ModmailArchiveTable) (archive : ModmailArchive) :
    ModmailArchiveTable × Option PgError :=
  if m.any (fun r => decide (r.uuid = archive.Uuid)) then (m, none)
  else (m ++ [archive.toRow], none)

end ModmailArchiveTable

/-- The database state that `MultiPanelTargets` works on: the rows of
`multi_panel_targets`, and the keys present in the two tables that its
foreign keys reference (`multi_panels("id")`, `panels("message_id")`). -/
structure MultiPanelTargets where
  multi_panels : List Int
  panels : List Nat
  rows : List (Int × Nat)
  deriving DecidableEq, Repr

/-- The schema constraint `PRIMARY KEY("multi_panel_id", "panel_id")`. -/
def UniquePairs (p : MultiPanelTargets) : Prop := p.rows.Nodup

instance (p : MultiPanelTargets) : Decidable (UniquePairs p) := by
  unfold UniquePairs; infer_instance

/-- The number of stored rows equal to a given pair. -/
def occurrences (p : MultiPanelTargets) (pair : Int × Nat) : Nat :=
  p.rows.countP (fun row => decide (row = pair))

namespace MultiPanelTargets

/-- The method `MultiPanelTargets.GetMultiPanels`. -/
def GetMultiPanels (p : MultiPanelTargets) (panelId : Nat) : List Int × Option PgError :=
  (((p.rows.filter (fun row => decide (row.2 = panelId))).map Prod.fst), none)

/-- The method `MultiPanelTargets.Insert`:
`INSERT INTO multi_panel_targets(...) VALUES ($1, $2) ON CONFLICT(...) DO NOTHING`.
A conflicting pair is skipped; a new pair is stored when both foreign keys of
the schema resolve, and rejected by the engine otherwise. -/
def Insert (p : MultiPanelTargets) (multiPanelId : Int) (panelId : Nat) :
    MultiPanelTargets × Option PgError :=
  if (multiPanelId, panelId) ∈ p.rows then (p, none)
  else if multiPanelId ∈ p.multi_panels ∧ panelId ∈ p.panels then
    (⟨p.multi_panels, p.panels, p.rows ++ [(multiPanelId, panelId)]⟩, none)
  else (p, some PgError.foreignKeyViolation)

/-- The method `MultiPanelTargets.DeleteAll`:
`DELETE FROM multi_panel_targets WHERE "multi_panel_id"=$1`. -/
def DeleteAll (p : MultiPanelTargets) (multiPanelId : Int) : MultiPanelTargets × Option PgError :=
  (⟨p.multi_panels, p.panels, p.rows.filter (fun row => decide (row.1 ≠ multiPanelId))⟩, none)

/-- The method `MultiPanelTargets.Delete`:
`DELETE FROM multi_panel_targets WHERE "multi_panel_id"=$1 AND "panel_id" = $2`. -/
def Delete (p : MultiPanelTargets) (multiPanelId : Int) (panelId : Nat) :
    MultiPanelTargets × Option PgError :=
  (⟨p.multi_panels, p.panels, p.rows.filter
      (fun row => decide (¬ (row.1 = multiPanelId ∧ row.2 = panelId)))⟩, none)

end MultiPanelTargets

/-! ## Reference notions used to state the properties -/

/-- The successfully decoded records of a sequence of decode outcomes, in their
original order. -/
def decodedRows (rows : List (Except PgError ModmailArchive)) : List ModmailArchive :=
  rows.filterMap (fun o => match o with
    | .ok archive => some archive
    | .error _ => none)

/-- The decode errors of a sequence of decode outcomes, in their original order. -/
def decodeErrors (rows : List (Except PgError ModmailArchive)) : List PgError :=
  rows.filterMap (fun o => match o with
    | .ok _ => none
    | .error err => some err)

/-- The records decoded before the first failing row of a sequence of decode
outcomes. -/
def decodedBeforeFailure : List (Except PgError ModmailArchive) → List ModmailArchive
  | [] => []
  | .error _ :: _ => []
  | .ok archive :: rest => archive :: decodedBeforeFailure rest

/-- Descending order of close times: no record is followed by a more recent one. -/
def SortedByCloseTimeDesc (l : List ModmailArchive) : Prop :=
  l.Pairwise (fun a b => b.CloseTime.unixNano ≤ a.CloseTime.unixNano)

/-- The rows of a guild in the order of its full listing, most recently closed
first. -/
def guildRows (m : ModmailArchiveTable) (guildId : Nat) : List ArchiveRow :=
  orderByCloseTimeDesc (m.filter (fun r => decide (r.guild_id = guildId)))

/-- The full listing of a guild, most recently closed first. -/
def guildListing (m : ModmailArchiveTable) (guildId : Nat) : List ModmailArchive :=
  (guildRows m guildId).map ArchiveRow.toArchive

/-- The records of a guild have pairwise distinct close times. -/
def DistinctCloseTimes (m : ModmailArchiveTable) (guildId : Nat) : Prop :=
  ((m.filter (fun r => decide (r.guild_id = guildId))).map ArchiveRow.close_time).Nodup

instance (m : ModmailArchiveTable) (guildId : Nat) : Decidable (DistinctCloseTimes m guildId) := by
  unfold DistinctCloseTimes; infer_instance

/-- The contiguous slice of a listing that ends just before index `k` and has
length `min n k`: the page immediately preceding index `k` in display order. -/
def pageEndingBefore (l : List ModmailArchive) (k n : Nat) : List ModmailArchive :=
  (l.drop (k - min n k)).take (min n k)

/-! ## Order structure of the sort key -/

instance closeTimeDesc_total :
    IsTotal ArchiveRow (fun a b => b.close_time ≤ a.close_time) :=
  ⟨fun a b => le_total b.close_time a.close_time⟩

instance closeTimeDesc_trans :
    IsTrans ArchiveRow (fun a b => b.close_time ≤ a.close_time) :=
  ⟨fun _ _ _ hab hbc => le_trans hbc hab⟩

instance closeTimeGt_antisymm :
    IsAntisymm ArchiveRow (fun a b => b.close_time < a.close_time) :=
  ⟨fun _ _ hab hba => absurd hab (not_lt_of_gt hba)⟩

/-! ## Concrete tables -/

/-- Row of archive A of the scenario: guild 1, user 10, closed at T0. -/
def exA : ArchiveRow := ⟨1, 1, 10, 0⟩
/-- Row of archive B of the scenario: guild 1, user 10, closed at T0 + 60. -/
def exB : ArchiveRow := ⟨2, 1, 10, 60⟩
/-- Row of archive C of the scenario: guild 1, user 20, closed at T0 + 120. -/
def exC : ArchiveRow := ⟨3, 1, 20, 120⟩
/-- The table of the scenario, in insertion order. -/
def exTable : ModmailArchiveTable := [exA, exB, exC]

/-- A table with one archive of member (guild 1, user 7) and two archives of the
same user in guild 2, one closed earlier and one closed later. -/
def exMemberTable : ModmailArchiveTable :=
  [⟨1, 1, 7, 50⟩, ⟨2, 2, 7, 10⟩, ⟨3, 2, 7, 90⟩]

/-- A record whose close time is a UTC time on a whole microsecond. -/
def exWholeMicro : ModmailArchive := ⟨9, 4, 5, ⟨77000, 0⟩⟩

/-- A record whose close time is a UTC time with 500 ns beyond the microsecond. -/
def exSubMicro : ModmailArchive := ⟨9, 4, 5, ⟨1500, 0⟩⟩

/-- A record whose close time is the epoch instant in a location one hour east
of UTC. -/
def exOtherZone : ModmailArchive := ⟨9, 4, 5, ⟨0, 3600⟩⟩

/-- Decode outcomes of five fetched rows, the second and the fourth failing. -/
def exOutcomes : List (Except PgError ModmailArchive) :=
  [.ok exA.toArchive, .error (PgError.scanFailure 1), .ok exB.toArchive,
    .error (PgError.scanFailure 2), .ok exC.toArchive]

/-- An association store in which no multi-panel and no panel exists. -/
def exNoParents : MultiPanelTargets := ⟨[], [], []⟩

/-- An association store with multi-panels 1 and 2, panels 100 and 200, and one
stored pair. -/
def exTargets : MultiPanelTargets := ⟨[1, 2], [100, 200], [(1, 100)]⟩

/-! ## The row loop -/

theorem scanRows_eq (rows : List (Except PgError ModmailArchive)) :
    ∀ (acc : List ModmailArchive) (e : Option PgError),
      scanRows rows acc e =
        (acc ++ decodedBeforeFailure rows,
          match (decodeErrors rows).head? with
          | some err => some err
          | none => e) := by
  induction rows with
  | nil => intro acc e; simp [scanRows, decodedBeforeFailure, decodeErrors]
  | cons o rest ih =>
    intro acc e
    cases o with
    | error err => simp [scanRows, decodedBeforeFailure, decodeErrors]
    | ok a =>
      rw [scanRows, ih]
      simp [decodedBeforeFailure, decodeErrors]

/-- Behaviour of the code in the row loop: it returns the records decoded before
the first failing row, and the error of that row (nil when no row
fails). -/
theorem scanRows_stops_at_first_failure (rows : List (Except PgError ModmailArchive)) :
    scanRows rows [] none = (decodedBeforeFailure rows, (decodeErrors rows).head?) := by
  rw [scanRows_eq]
  cases (decodeErrors rows).head? <;> simp

theorem decodedBeforeFailure_map_Scan (rows : List ArchiveRow) :
    decodedBeforeFailure (rows.map Scan) = rows.map ArchiveRow.toArchive := by
  induction rows with
  | nil => rfl
  | cons a t ih =>
    have : decodedBeforeFailure (Scan a :: t.map Scan) =
        a.toArchive :: decodedBeforeFailure (t.map Scan) := rfl
    rw [List.map_cons, this, ih, List.map_cons]

theorem decodeErrors_map_Scan (rows : List ArchiveRow) :
    decodeErrors (rows.map Scan) = [] := by
  induction rows with
  | nil => rfl
  | cons a t ih =>
    have : decodeErrors (Scan a :: t.map Scan) = decodeErrors (t.map Scan) := rfl
    rw [List.map_cons, this, ih]

theorem scanRows_map_Scan (rows : List ArchiveRow) :
    scanRows (rows.map Scan) [] none = (rows.map ArchiveRow.toArchive, none) := by
  rw [scanRows_stops_at_first_failure, decodedBeforeFailure_map_Scan, decodeErrors_map_Scan]
  rfl

theorem readPage_Query (m : ModmailArchiveTable) (cond : ArchiveRow → Bool) (limit : Nat) :
    readPage (Query m cond limit) =
      (((orderByCloseTimeDesc (m.filter cond)).take limit).map ArchiveRow.toArchive, none) := by
  show scanRows (((orderByCloseTimeDesc (m.filter cond)).take limit).map Scan) [] none = _
  exact scanRows_map_Scan _

/-- Claim C9 at a failing input: of five fetched rows the second and the fourth
fail to decode.  The loop returns the first record only, with the error of
the second row; the decoded records of the whole sequence are three, and the
last failing row is the fourth. -/
theorem scanRows_loses_rows_behind_failure :
    scanRows exOutcomes [] none = ([exA.toArchive], some (PgError.scanFailure 1)) ∧
    decodedRows exOutcomes = [exA.toArchive, exB.toArchive, exC.toArchive] ∧
    (decodeErrors exOutcomes).getLast? = some (PgError.scanFailure 2) ∧
    (scanRows exOutcomes [] none).1 ≠ decodedRows exOutcomes ∧
    (scanRows exOutcomes [] none).2 ≠ (decodeErrors exOutcomes).getLast? := by
  decide

/-! ## Ordering lemmas -/

theorem sorted_orderByCloseTimeDesc (l : List ArchiveRow) :
    (orderByCloseTimeDesc l).Pairwise (fun a b => b.close_time ≤ a.close_time) :=
  List.sorted_insertionSort _ l

theorem mem_orderByCloseTimeDesc {l : List ArchiveRow} {x : ArchiveRow} :
    x ∈ orderByCloseTimeDesc l ↔ x ∈ l :=
  List.mem_insertionSort _

theorem sorted_take_orderBy (l : List ArchiveRow) (n : Nat) :
    ((orderByCloseTimeDesc l).take n).Pairwise (fun a b => b.close_time ≤ a.close_time) :=
  (sorted_orderByCloseTimeDesc l).sublist (List.take_sublist n _)

theorem mem_of_mem_take_orderBy {l : List ArchiveRow} {n : Nat} {x : ArchiveRow}
    (h : x ∈ (orderByCloseTimeDesc l).take n) : x ∈ l :=
  mem_orderByCloseTimeDesc.1 (List.mem_of_mem_take h)

theorem sorted_map_toArchive {l : List ArchiveRow}
    (h : l.Pairwise (fun a b => b.close_time ≤ a.close_time)) :
    SortedByCloseTimeDesc (l.map ArchiveRow.toArchive) := by
  unfold SortedByCloseTimeDesc
  rw [List.pairwise_map]
  refine h.imp ?_
  intro a b hab
  show b.close_time * 1000 ≤ a.close_time * 1000
  omega

theorem toArchive_unixNano_lt {a b : ArchiveRow} (h : a.close_time < b.close_time) :
    a.toArchive.CloseTime.unixNano < b.toArchive.CloseTime.unixNano := by
  show a.close_time * 1000 < b.close_time * 1000
  omega

theorem toArchive_unixNano_le {a b : ArchiveRow} (h : a.close_time ≤ b.close_time) :
    a.toArchive.CloseTime.unixNano ≤ b.toArchive.CloseTime.unixNano := by
  show a.close_time * 1000 ≤ b.close_time * 1000
  omega

theorem GetByGuild_no_cursor (m : ModmailArchiveTable) (guildId limit : Nat) :
    ModmailArchiveTable.GetByGuild m guildId limit uuid.Nil uuid.Nil =
      (((guildRows m guildId).take limit).map ArchiveRow.toArchive, none) := by
  simp [ModmailArchiveTable.GetByGuild, readPage_Query, guildRows]

/-! ## Listing without a cursor -/

/-- Claim C1: without cursors, `GetByGuild` returns at most `limit` records, all of
the requested guild and each read from a stored row, in descending order of
close time, with no error; when the guild has no record the result is
empty. -/
theorem GetByGuild_no_cursor_page (m : ModmailArchiveTable) (G N : Nat) :
    ((ModmailArchiveTable.GetByGuild m G N uuid.Nil uuid.Nil).1.length ≤ N ∧
      (∀ r ∈ (ModmailArchiveTable.GetByGuild m G N uuid.Nil uuid.Nil).1,
        r.GuildId = G ∧ ∃ row ∈ m, row.toArchive = r) ∧
      SortedByCloseTimeDesc (ModmailArchiveTable.GetByGuild m G N uuid.Nil uuid.Nil).1 ∧
      (ModmailArchiveTable.GetByGuild m G N uuid.Nil uuid.Nil).2 = none) ∧
    ((∀ row ∈ m, row.guild_id ≠ G) →
      ModmailArchiveTable.GetByGuild m G N uuid.Nil uuid.Nil = ([], none)) := by
  rw [GetByGuild_no_cursor]
  refine ⟨⟨?_, ?_, ?_, rfl⟩, ?_⟩
  · rw [List.length_map]
    exact List.length_take_le N _
  · intro r hr
    obtain ⟨row, hrow, rfl⟩ := List.mem_map.1 hr
    have hm := mem_of_mem_take_orderBy hrow
    rw [List.mem_filter] at hm
    exact ⟨by simpa using hm.2, row, hm.1, rfl⟩
  · exact sorted_map_toArchive (sorted_take_orderBy _ N)
  · intro hnone
    have : m.filter (fun r => decide (r.guild_id = G)) = [] := by
      rw [List.filter_eq_nil_iff]
      intro r hr
      simpa using hnone r hr
    simp [guildRows, this, orderByCloseTimeDesc]

theorem GetByGuild_no_cursor_page_witness :
    ModmailArchiveTable.GetByGuild exTable 2 5 uuid.Nil uuid.Nil = ([], none) ∧
    (ModmailArchiveTable.GetByGuild exTable 1 2 uuid.Nil uuid.Nil).1.length ≤ 2 :=
  ⟨(GetByGuild_no_cursor_page exTable 2 5).2 (by decide),
   (GetByGuild_no_cursor_page exTable 1 2).1.1⟩

/-! ## Single-record lookup and insert -/

theorem find_append_new (m : ModmailArchiveTable) (row : ArchiveRow)
    (hnew : ∀ x ∈ m, x.uuid ≠ row.uuid) :
    (m ++ [row]).find? (fun x => decide (x.uuid = row.uuid)) = some row := by
  induction m with
  | nil => simp
  | cons a t ih =>
    have ha : a.uuid ≠ row.uuid := hnew a (List.mem_cons_self _ _)
    have ht : ∀ x ∈ t, x.uuid ≠ row.uuid := fun x hx => hnew x (List.mem_cons_of_mem _ hx)
    simp [List.find?, ha, ih ht]

theorem Set_of_new (m : ModmailArchiveTable) (r : ModmailArchive)
    (hnew : ∀ x ∈ m, x.uuid ≠ r.Uuid) :
    ModmailArchiveTable.Set m r = (m ++ [r.toRow], none) := by
  have : m.any (fun x => decide (x.uuid = r.Uuid)) = false := by
    rw [List.any_eq_false]
    intro x hx
    simpa using hnew x hx
  simp [ModmailArchiveTable.Set, this]

theorem Set_of_present (m : ModmailArchiveTable) (r : ModmailArchive)
    (hold : ∃ x ∈ m, x.uuid = r.Uuid) :
    ModmailArchiveTable.Set m r = (m, none) := by
  have : m.any (fun x => decide (x.uuid = r.Uuid)) = true := by
    rw [List.any_eq_true]
    obtain ⟨x, hx, hxr⟩ := hold
    exact ⟨x, hx, by simpa using hxr⟩
  simp [ModmailArchiveTable.Set, this]

theorem timestamp_round_trip (t : Time) :
    timestampDecode (timestampEncode t) = t ↔ t.offset = 0 ∧ t.unixNano % 1000 = 0 := by
  obtain ⟨n, o⟩ := t
  simp only [timestampDecode, timestampEncode, Time.mk.injEq]
  constructor
  · rintro ⟨h1, h2⟩
    subst h2
    simp only [zero_mul, add_zero] at h1
    exact ⟨rfl, by omega⟩
  · rintro ⟨h1, h2⟩
    subst h1
    simp only [zero_mul, add_zero]
    exact ⟨by omega, trivial⟩

/-- Claim C6, as amended: after a successful `Set` of a record whose id was not
stored, `Get` of that id returns a nil error and a record with the same
`Uuid`, `GuildId` and `UserId`, whose `CloseTime` is the wall clock reading
of the given close time, cut to whole microseconds and in UTC; the record
equals the given one exactly when its close time is a UTC time on a whole
microsecond. -/
theorem Get_after_Set_reads_stored_time (m : ModmailArchiveTable) (r : ModmailArchive)
    (hnew : ∀ x ∈ m, x.uuid ≠ r.Uuid)
    (hok : (ModmailArchiveTable.Set m r).2 = none) :
    ModmailArchiveTable.Get (ModmailArchiveTable.Set m r).1 r.Uuid =
      (⟨r.Uuid, r.GuildId, r.UserId, timestampDecode (timestampEncode r.CloseTime)⟩, none) ∧
    (ModmailArchiveTable.Get (ModmailArchiveTable.Set m r).1 r.Uuid).1.Uuid = r.Uuid ∧
    (ModmailArchiveTable.Get (ModmailArchiveTable.Set m r).1 r.Uuid).1.GuildId = r.GuildId ∧
    (ModmailArchiveTable.Get (ModmailArchiveTable.Set m r).1 r.Uuid).1.UserId = r.UserId ∧
    (ModmailArchiveTable.Get (ModmailArchiveTable.Set m r).1 r.Uuid).1.CloseTime =
      ⟨(r.CloseTime.unixNano + r.CloseTime.offset * 1000000000) / 1000 * 1000, 0⟩ ∧
    (ModmailArchiveTable.Get (ModmailArchiveTable.Set m r).1 r.Uuid = (r, none) ↔
      r.CloseTime.offset = 0 ∧ r.CloseTime.unixNano % 1000 = 0) := by
  have _ := hok
  have h : ModmailArchiveTable.Get (ModmailArchiveTable.Set m r).1 r.Uuid =
      (⟨r.Uuid, r.GuildId, r.UserId, timestampDecode (timestampEncode r.CloseTime)⟩, none) := by
    rw [Set_of_new m r hnew]
    have hf := find_append_new m r.toRow hnew
    simp only [ModmailArchive.toRow] at hf
    simp [ModmailArchiveTable.Get, ModmailArchive.toRow, hf, Scan, ArchiveRow.toArchive]
  refine ⟨h, by rw [h], by rw [h], by rw [h], by rw [h]; rfl, ?_⟩
  rw [h, ← timestamp_round_trip]
  obtain ⟨u, g, w, t⟩ := r
  simp

theorem Get_after_Set_reads_stored_time_witness :
    ModmailArchiveTable.Get (ModmailArchiveTable.Set exTable exWholeMicro).1 exWholeMicro.Uuid
      = (exWholeMicro, none) :=
  (Get_after_Set_reads_stored_time exTable exWholeMicro (by decide) (by decide)).2.2.2.2.2.2
    (by decide)

/-- Claim C6, as stated, fails: a record with a new id whose close time has 500 ns
beyond the microsecond comes back with the close time cut to the microsecond,
and a record whose close time lies in a location one hour east of UTC comes
back as a UTC time one hour later. -/
theorem Get_after_Set_changes_close_time :
    (∀ x ∈ exTable, x.uuid ≠ exSubMicro.Uuid) ∧
    (ModmailArchiveTable.Set exTable exSubMicro).2 = none ∧
    ModmailArchiveTable.Get (ModmailArchiveTable.Set exTable exSubMicro).1 exSubMicro.Uuid =
      (⟨9, 4, 5, ⟨1000, 0⟩⟩, none) ∧
    (ModmailArchiveTable.Get (ModmailArchiveTable.Set exTable exSubMicro).1
      exSubMicro.Uuid).1.CloseTime ≠ exSubMicro.CloseTime ∧
    (ModmailArchiveTable.Set exTable exOtherZone).2 = none ∧
    ModmailArchiveTable.Get (ModmailArchiveTable.Set exTable exOtherZone).1 exOtherZone.Uuid =
      (⟨9, 4, 5, ⟨3600000000000, 0⟩⟩, none) ∧
    (ModmailArchiveTable.Get (ModmailArchiveTable.Set exTable exOtherZone).1
      exOtherZone.Uuid).1.CloseTime ≠ exOtherZone.CloseTime := by
  decide

/-- Claim C7: `Set` of a record whose id is already stored returns no error and
leaves the table as it was, whatever the other three fields are; hence a
second `Set` with the same id changes nothing after the first. -/
theorem Set_existing_id_is_noop (m : ModmailArchiveTable) (r r2 : ModmailArchive) :
    ((∃ x ∈ m, x.uuid = r.Uuid) → ModmailArchiveTable.Set m r = (m, none)) ∧
    (r2.Uuid = r.Uuid →
      ModmailArchiveTable.Set (ModmailArchiveTable.Set m r).1 r2 =
        ((ModmailArchiveTable.Set m r).1, none)) := by
  refine ⟨Set_of_present m r, ?_⟩
  intro h2
  apply Set_of_present
  by_cases hold : ∃ x ∈ m, x.uuid = r.Uuid
  · rw [Set_of_present m r hold]
    obtain ⟨x, hx, hxr⟩ := hold
    exact ⟨x, hx, hxr.trans h2.symm⟩
  · have hnew : ∀ x ∈ m, x.uuid ≠ r.Uuid := fun x hx hxr => hold ⟨x, hx, hxr⟩
    rw [Set_of_new m r hnew]
    exact ⟨r.toRow, by simp, h2.symm⟩

theorem Set_existing_id_is_noop_witness :
    ModmailArchiveTable.Set exTable ⟨2, 8, 8, ⟨8, 8⟩⟩ = (exTable, none) ∧
    ModmailArchiveTable.Set (ModmailArchiveTable.Set [] exA.toArchive).1 ⟨1, 8, 8, ⟨8, 8⟩⟩ =
      ([exA], none) :=
  ⟨(Set_existing_id_is_noop exTable ⟨2, 8, 8, ⟨8, 8⟩⟩ exA.toArchive).1 ⟨exB, by decide, rfl⟩,
   (Set_existing_id_is_noop [] exA.toArchive ⟨1, 8, 8, ⟨8, 8⟩⟩).2 rfl⟩

/-! ## Cursor precedence -/

/-- Claim C10: when `after` is not the nil id, `GetByGuild` and `GetByMember` ignore
`before`; a cursor equal to the nil id is treated as absent. -/
theorem after_cursor_takes_precedence (m : ModmailArchiveTable) (G U N : Nat)
    (after before : UUID) (h : after ≠ uuid.Nil) :
    ModmailArchiveTable.GetByGuild m G N after before =
      ModmailArchiveTable.GetByGuild m G N after uuid.Nil ∧
    ModmailArchiveTable.GetByMember m G U N after before =
      ModmailArchiveTable.GetByMember m G U N after uuid.Nil ∧
    (ModmailArchiveTable.GetByGuild m G N after before).2 = none ∧
    (ModmailArchiveTable.GetByMember m G U N after before).2 = none ∧
    ModmailArchiveTable.GetByGuild m G N uuid.Nil uuid.Nil =
      readPage (Query m (fun r => decide (r.guild_id = G)) N) ∧
    ModmailArchiveTable.GetByMember m G U N uuid.Nil uuid.Nil =
      readPage (Query m (fun r => decide (r.guild_id = G) && decide (r.user_id = U)) N) ∧
    ModmailArchiveTable.GetByUser m U N uuid.Nil =
      readPage (Query m (fun r => decide (r.user_id = U)) N) := by
  refine ⟨?_, ?_, ?_, ?_, ?_, ?_, ?_⟩
  · simp [ModmailArchiveTable.GetByGuild, h]
  · simp [ModmailArchiveTable.GetByMember, h]
  · simp [ModmailArchiveTable.GetByGuild, h, readPage_Query]
  · simp [ModmailArchiveTable.GetByMember, h, readPage_Query]
  · simp [ModmailArchiveTable.GetByGuild]
  · simp [ModmailArchiveTable.GetByMember]
  · simp [ModmailArchiveTable.GetByUser]

theorem after_cursor_takes_precedence_witness :
    ModmailArchiveTable.GetByGuild exTable 1 10 2 1 =
      ModmailArchiveTable.GetByGuild exTable 1 10 2 uuid.Nil :=
  (after_cursor_takes_precedence exTable 1 10 10 2 1 (by decide)).1

/-! ## Anchor resolution -/

theorem anchorCloseTime_of_mem (m : ModmailArchiveTable) (scope : ArchiveRow → Bool)
    (a : ArchiveRow) (hu : UniqueIds m) (ha : a ∈ m) (hs : scope a = true) :
    anchorCloseTime m scope a.uuid = some a.close_time := by
  unfold anchorCloseTime
  suffices h : m.find? (fun r => decide (r.uuid = a.uuid) && scope r) = some a by
    rw [h]; rfl
  induction m with
  | nil => cases ha
  | cons x t ih =>
    unfold UniqueIds at hu ih
    rw [List.map_cons, List.nodup_cons] at hu
    rcases List.mem_cons.1 ha with rfl | hat
    · simp [List.find?, hs]
    · have hx : x.uuid ≠ a.uuid := by
        intro hxa
        exact hu.1 (hxa ▸ List.mem_map_of_mem _ hat)
      simp only [List.find?, hx, decide_False, Bool.false_and]
      exact ih hu.2 hat

theorem anchorCloseTime_none (m : ModmailArchiveTable) (scope : ArchiveRow → Bool)
    (cursor : UUID) (h : ∀ x ∈ m, x.uuid = cursor → scope x = false) :
    anchorCloseTime m scope cursor = none := by
  unfold anchorCloseTime
  have : m.find? (fun r => decide (r.uuid = cursor) && scope r) = none := by
    rw [List.find?_eq_none]
    intro x hx
    by_cases hc : x.uuid = cursor
    · simp [h x hx hc]
    · simp [hc]
  rw [this]; rfl

theorem le_last_of_sorted {l : List ArchiveRow} {z : ArchiveRow}
    (hs : l.Pairwise (fun a b => b.close_time ≤ a.close_time)) (hl : l.getLast? = some z) :
    ∀ x ∈ l, z.close_time ≤ x.close_time := by
  obtain ⟨ys, rfl⟩ := List.getLast?_eq_some_iff.1 hl
  intro x hx
  rw [List.pairwise_append] at hs
  rcases List.mem_append.1 hx with h | h
  · exact hs.2.2 x h z (by simp)
  · simp at h; subst h; exact le_refl _

theorem GetByGuild_before (m : ModmailArchiveTable) (G N : Nat) (before : UUID)
    (hb : before ≠ uuid.Nil) :
    ModmailArchiveTable.GetByGuild m G N uuid.Nil before =
      (((orderByCloseTimeDesc (m.filter (fun r => decide (r.guild_id = G) &&
          closeTimeLt (anchorCloseTime m (fun a => decide (a.guild_id = G)) before) r))).take
            N).map ArchiveRow.toArchive, none) := by
  rw [ModmailArchiveTable.GetByGuild, if_neg (by simp), if_pos hb, readPage_Query]

theorem GetByGuild_after (m : ModmailArchiveTable) (G N : Nat) (after before : UUID)
    (ha : after ≠ uuid.Nil) :
    ModmailArchiveTable.GetByGuild m G N after before =
      (((orderByCloseTimeDesc (m.filter (fun r => decide (r.guild_id = G) &&
          closeTimeGt (anchorCloseTime m (fun a => decide (a.guild_id = G)) after) r))).take
            N).map ArchiveRow.toArchive, none) := by
  rw [ModmailArchiveTable.GetByGuild, if_pos ha, readPage_Query]

/-! ## Consecutive pages through the `before` cursor -/

/-- Claim C5: with unique ids, when the cursorless page of a guild is non-empty and
its last record has a non-nil id, every record of the page fetched with that
id as `before` is strictly older than every record of the first page, so the
two pages share no record. -/
theorem before_page_strictly_older (m : ModmailArchiveTable) (G N M : Nat)
    (last : ModmailArchive) (hu : UniqueIds m)
    (hl : (ModmailArchiveTable.GetByGuild m G N uuid.Nil uuid.Nil).1.getLast? = some last)
    (hid : last.Uuid ≠ uuid.Nil) :
    (∀ r2 ∈ (ModmailArchiveTable.GetByGuild m G M uuid.Nil last.Uuid).1,
      ∀ r1 ∈ (ModmailArchiveTable.GetByGuild m G N uuid.Nil uuid.Nil).1,
        r2.CloseTime.unixNano < r1.CloseTime.unixNano) ∧
    (∀ r2 ∈ (ModmailArchiveTable.GetByGuild m G M uuid.Nil last.Uuid).1,
      r2 ∉ (ModmailArchiveTable.GetByGuild m G N uuid.Nil uuid.Nil).1) := by
  rw [GetByGuild_no_cursor] at hl ⊢
  simp only [List.getLast?_map, Option.map_eq_some'] at hl
  obtain ⟨lastRow, hlr, rfl⟩ := hl
  have hsorted := sorted_take_orderBy (m.filter (fun r => decide (r.guild_id = G))) N
  have hlast : lastRow ∈ m.filter (fun r => decide (r.guild_id = G)) :=
    mem_of_mem_take_orderBy (List.mem_of_getLast?_eq_some hlr)
  rw [List.mem_filter] at hlast
  have hanchor : anchorCloseTime m (fun a => decide (a.guild_id = G)) lastRow.uuid
      = some lastRow.close_time :=
    anchorCloseTime_of_mem m _ lastRow hu hlast.1 hlast.2
  have hid2 : lastRow.uuid ≠ uuid.Nil := hid
  have hlt : ∀ r2 ∈ (ModmailArchiveTable.GetByGuild m G M uuid.Nil lastRow.toArchive.Uuid).1,
      ∀ r1 ∈ ((guildRows m G).take N).map ArchiveRow.toArchive,
        r2.CloseTime.unixNano < r1.CloseTime.unixNano := by
    intro r2 h2 r1 h1
    obtain ⟨row1, hrow1, rfl⟩ := List.mem_map.1 h1
    have hge := le_last_of_sorted hsorted hlr row1 hrow1
    have h2b : r2 ∈ (ModmailArchiveTable.GetByGuild m G M uuid.Nil lastRow.uuid).1 := h2
    rw [GetByGuild_before m G M lastRow.uuid hid2, hanchor] at h2b
    obtain ⟨row2, hrow2, rfl⟩ := List.mem_map.1 h2b
    have h2m := mem_of_mem_take_orderBy hrow2
    rw [List.mem_filter] at h2m
    have : row2.guild_id = G ∧ row2.close_time < lastRow.close_time := by
      simpa [closeTimeLt] using h2m.2
    exact toArchive_unixNano_lt (lt_of_lt_of_le this.2 hge)
  refine ⟨hlt, ?_⟩
  intro r2 h2 h1
  exact lt_irrefl _ (hlt r2 h2 r2 h1)

theorem before_page_strictly_older_witness :
    (∀ r2 ∈ (ModmailArchiveTable.GetByGuild exTable 1 5 uuid.Nil exB.toArchive.Uuid).1,
      ∀ r1 ∈ (ModmailArchiveTable.GetByGuild exTable 1 2 uuid.Nil uuid.Nil).1,
        r2.CloseTime.unixNano < r1.CloseTime.unixNano) ∧
    (ModmailArchiveTable.GetByGuild exTable 1 2 uuid.Nil uuid.Nil).1 =
      [exC.toArchive, exB.toArchive] ∧
    (ModmailArchiveTable.GetByGuild exTable 1 5 uuid.Nil exB.toArchive.Uuid).1 =
      [exA.toArchive] :=
  ⟨(before_page_strictly_older exTable 1 2 5 exB.toArchive (by decide) (by decide)
      (by decide)).1,
   by decide, by decide⟩

/-! ## The window of the `after` cursor -/

theorem strictly_sorted_of_distinct {l : List ArchiveRow}
    (hs : l.Pairwise (fun a b => b.close_time ≤ a.close_time))
    (hd : (l.map ArchiveRow.close_time).Nodup) :
    l.Pairwise (fun a b => b.close_time < a.close_time) := by
  unfold List.Nodup at hd
  rw [List.pairwise_map] at hd
  exact (hs.and hd).imp (fun h => lt_of_le_of_ne h.1 (Ne.symm h.2))

theorem filter_newer_eq_take {l : List ArchiveRow} {a : ArchiveRow}
    (hs : l.Pairwise (fun x y => y.close_time < x.close_time)) :
    ∀ k : Nat, l[k]? = some a →
      l.filter (fun r => decide (a.close_time < r.close_time)) = l.take k := by
  induction l with
  | nil => intro k hk; simp at hk
  | cons x t ih =>
    rw [List.pairwise_cons] at hs
    intro k hk
    cases k with
    | zero =>
      simp at hk
      subst hk
      rw [List.take_zero, List.filter_eq_nil_iff]
      intro y hy
      rcases List.mem_cons.1 hy with rfl | hyt
      · simp
      · simpa using le_of_lt (hs.1 y hyt)
    | succ k =>
      simp at hk
      have hat : a ∈ t := List.getElem?_mem hk
      have hx : a.close_time < x.close_time := hs.1 a hat
      rw [List.take_succ_cons, List.filter_cons_of_pos (by simpa using hx), ih hs.2 k hk]

theorem orderBy_filter_newer (l : List ArchiveRow) (t : Int)
    (hd : (l.map ArchiveRow.close_time).Nodup) :
    orderByCloseTimeDesc (l.filter (fun r => decide (t < r.close_time))) =
      (orderByCloseTimeDesc l).filter (fun r => decide (t < r.close_time)) := by
  have hperm : List.Perm (orderByCloseTimeDesc l) l := List.perm_insertionSort _ l
  have hstrict : (orderByCloseTimeDesc l).Pairwise (fun a b => b.close_time < a.close_time) :=
    strictly_sorted_of_distinct (sorted_orderByCloseTimeDesc l)
      ((hperm.map _).nodup_iff.2 hd)
  have hd2 : ((l.filter (fun r => decide (t < r.close_time))).map ArchiveRow.close_time).Nodup :=
    hd.sublist ((List.filter_sublist l).map _)
  have hperm2 : List.Perm (orderByCloseTimeDesc (l.filter (fun r => decide (t < r.close_time))))
      (l.filter (fun r => decide (t < r.close_time))) := List.perm_insertionSort _ _
  have hstrict2 := strictly_sorted_of_distinct (sorted_orderByCloseTimeDesc
    (l.filter (fun r => decide (t < r.close_time)))) ((hperm2.map _).nodup_iff.2 hd2)
  exact List.eq_of_perm_of_sorted (hperm2.trans (hperm.filter _).symm) hstrict2
    (hstrict.sublist (List.filter_sublist _))

theorem GetByGuild_after_anchor (m : ModmailArchiveTable) (G N : Nat) (a : ArchiveRow)
    (hu : UniqueIds m) (ham : a ∈ m) (hg : a.guild_id = G) (hid : a.uuid ≠ uuid.Nil) :
    (ModmailArchiveTable.GetByGuild m G N a.uuid uuid.Nil).1 =
      ((orderByCloseTimeDesc ((m.filter (fun r => decide (r.guild_id = G))).filter
        (fun r => decide (a.close_time < r.close_time)))).take N).map ArchiveRow.toArchive := by
  rw [GetByGuild_after m G N a.uuid uuid.Nil hid,
    anchorCloseTime_of_mem m _ a hu ham (by simpa using hg), List.filter_filter]
  simp only [closeTimeGt]
  congr 4
  funext r
  exact Bool.and_comm _ _

/-- Claim C4, as amended: with unique ids and pairwise distinct close times in the
guild, when the non-nil cursor `after` names the record at index `k` of the
guild listing `L`, `GetByGuild` returns the first `min N k` records of `L`
(the most recent of the records newer than the anchor); this is the slice
ending just before index `k` whenever `k ≤ N`. -/
theorem GetByGuild_after_returns_newest (m : ModmailArchiveTable) (G N k : Nat)
    (a : ModmailArchive) (hu : UniqueIds m) (hd : DistinctCloseTimes m G)
    (hid : a.Uuid ≠ uuid.Nil) (hk : (guildListing m G)[k]? = some a) :
    (ModmailArchiveTable.GetByGuild m G N a.Uuid uuid.Nil).1 =
      (guildListing m G).take (min N k) ∧
    (k ≤ N → (ModmailArchiveTable.GetByGuild m G N a.Uuid uuid.Nil).1 =
      pageEndingBefore (guildListing m G) k N) := by
  unfold guildListing at hk
  rw [List.getElem?_map, Option.map_eq_some'] at hk
  obtain ⟨row, hrow, rfl⟩ := hk
  have hid2 : row.uuid ≠ uuid.Nil := hid
  have haL : row ∈ guildRows m G := List.getElem?_mem hrow
  have haf : row ∈ m.filter (fun r => decide (r.guild_id = G)) := mem_orderByCloseTimeDesc.1 haL
  rw [List.mem_filter] at haf
  have hg : row.guild_id = G := by simpa using haf.2
  have hstrict : (guildRows m G).Pairwise (fun x y => y.close_time < x.close_time) :=
    strictly_sorted_of_distinct (sorted_orderByCloseTimeDesc _)
      (((List.perm_insertionSort _ _).map _).nodup_iff.2 hd)
  have hmain : (ModmailArchiveTable.GetByGuild m G N row.toArchive.Uuid uuid.Nil).1 =
      (guildListing m G).take (min N k) := by
    show (ModmailArchiveTable.GetByGuild m G N row.uuid uuid.Nil).1 = _
    rw [GetByGuild_after_anchor m G N row hu haf.1 hg hid2, orderBy_filter_newer _ _ hd]
    show (((guildRows m G).filter _).take N).map ArchiveRow.toArchive = _
    rw [filter_newer_eq_take hstrict k hrow, List.take_take, guildListing, List.map_take]
  refine ⟨hmain, ?_⟩
  intro hkN
  rw [hmain]
  simp [pageEndingBefore, Nat.min_eq_right hkN]

theorem GetByGuild_after_returns_newest_witness :
    (ModmailArchiveTable.GetByGuild exTable 1 1 exA.toArchive.Uuid uuid.Nil).1 =
      (guildListing exTable 1).take (min 1 2) :=
  (GetByGuild_after_returns_newest exTable 1 1 2 exA.toArchive (by decide) (by decide)
    (by decide) (by decide)).1

/-- Claim C4, as stated, fails: in the scenario table the anchor A sits at index 2
of the listing `[C, B, A]`; with limit 1 the code returns `[C]`, while the
page immediately preceding the anchor is `[B]`. -/
theorem GetByGuild_after_skips_adjacent_page :
    UniqueIds exTable ∧ DistinctCloseTimes exTable 1 ∧ exA.toArchive.Uuid ≠ uuid.Nil ∧
    exA ∈ exTable ∧ exA.toArchive.GuildId = 1 ∧
    guildListing exTable 1 = [exC.toArchive, exB.toArchive, exA.toArchive] ∧
    (guildListing exTable 1)[2]? = some exA.toArchive ∧
    (ModmailArchiveTable.GetByGuild exTable 1 1 exA.toArchive.Uuid uuid.Nil).1 =
      [exC.toArchive] ∧
    pageEndingBefore (guildListing exTable 1) 2 1 = [exB.toArchive] ∧
    (ModmailArchiveTable.GetByGuild exTable 1 1 exA.toArchive.Uuid uuid.Nil).1 ≠
      pageEndingBefore (guildListing exTable 1) 2 1 := by
  decide

/-! ## The cursor of `GetByUser` -/

theorem GetByUser_after (m : ModmailArchiveTable) (U N : Nat) (after : UUID)
    (ha : after ≠ uuid.Nil) :
    ModmailArchiveTable.GetByUser m U N after =
      (((orderByCloseTimeDesc (m.filter (fun r => decide (r.user_id = U) &&
          closeTimeLt (anchorCloseTime m (fun a => decide (a.user_id = U)) after) r))).take
            N).map ArchiveRow.toArchive, none) := by
  rw [ModmailArchiveTable.GetByUser, if_neg ha, readPage_Query]

/-- Behaviour of the code for `GetByUser` with a cursor: with unique ids, when
`after` names a stored row of the user, every returned record is of that
user and strictly older than the anchor, in descending order. -/
theorem GetByUser_after_window_is_older (m : ModmailArchiveTable) (U N : Nat)
    (a : ArchiveRow) (hu : UniqueIds m) (ham : a ∈ m) (hau : a.user_id = U)
    (hid : a.uuid ≠ uuid.Nil) :
    (∀ r ∈ (ModmailArchiveTable.GetByUser m U N a.uuid).1,
      r.UserId = U ∧ r.CloseTime.unixNano < a.toArchive.CloseTime.unixNano) ∧
    SortedByCloseTimeDesc (ModmailArchiveTable.GetByUser m U N a.uuid).1 := by
  rw [GetByUser_after m U N a.uuid hid,
    anchorCloseTime_of_mem m _ a hu ham (by simpa using hau)]
  refine ⟨?_, sorted_map_toArchive (sorted_take_orderBy _ N)⟩
  intro r hr
  obtain ⟨row, hrow, rfl⟩ := List.mem_map.1 hr
  have hm := mem_of_mem_take_orderBy hrow
  rw [List.mem_filter] at hm
  have : row.user_id = U ∧ row.close_time < a.close_time := by
    simpa [closeTimeLt] using hm.2
  exact ⟨this.1, toArchive_unixNano_lt this.2⟩

/-- Claim C2 at a failing input: in the scenario table, `GetByUser` of user 10 with
`after` naming archive B (closed at 60) returns archive A (closed at 0), which
is older than the anchor, not newer. -/
theorem GetByUser_after_returns_older_record :
    exB ∈ exTable ∧ exB.toArchive.UserId = 10 ∧ exB.toArchive.Uuid ≠ uuid.Nil ∧
    UniqueIds exTable ∧
    ModmailArchiveTable.GetByUser exTable 10 10 exB.toArchive.Uuid = ([exA.toArchive], none) ∧
    exA.toArchive.CloseTime.unixNano < exB.toArchive.CloseTime.unixNano ∧
    ¬ (∀ r ∈ (ModmailArchiveTable.GetByUser exTable 10 10 exB.toArchive.Uuid).1,
        exB.toArchive.CloseTime.unixNano < r.CloseTime.unixNano) := by
  decide

/-! ## The anchor scope of `GetByMember` -/

/-- Behaviour of the code for `GetByMember` with a cursor that names no stored
row of user `U`: the window is empty, through `after` and through
`before`. -/
theorem GetByMember_anchor_of_other_user_empty (m : ModmailArchiveTable) (G U N : Nat)
    (cursor : UUID) (hc : cursor ≠ uuid.Nil)
    (hother : ∀ x ∈ m, x.uuid = cursor → x.user_id ≠ U) :
    ModmailArchiveTable.GetByMember m G U N cursor uuid.Nil = ([], none) ∧
    ModmailArchiveTable.GetByMember m G U N uuid.Nil cursor = ([], none) := by
  have hnone : anchorCloseTime m (fun a => decide (a.user_id = U)) cursor = none :=
    anchorCloseTime_none m _ cursor (fun x hx hxc => by simpa using hother x hx hxc)
  constructor
  · rw [ModmailArchiveTable.GetByMember, if_pos hc, readPage_Query, hnone]
    simp [closeTimeGt, orderByCloseTimeDesc]
  · rw [ModmailArchiveTable.GetByMember, if_neg (by simp), if_pos hc, readPage_Query, hnone]
    simp [closeTimeLt, orderByCloseTimeDesc]

/-- Behaviour of the code for `GetByGuild` with a cursor that names no stored
row of guild `G`: the window is empty, through `after` and through
`before`. -/
theorem GetByGuild_anchor_of_other_guild_empty (m : ModmailArchiveTable) (G N : Nat)
    (cursor : UUID) (hc : cursor ≠ uuid.Nil)
    (hother : ∀ x ∈ m, x.uuid = cursor → x.guild_id ≠ G) :
    ModmailArchiveTable.GetByGuild m G N cursor uuid.Nil = ([], none) ∧
    ModmailArchiveTable.GetByGuild m G N uuid.Nil cursor = ([], none) := by
  have hnone : anchorCloseTime m (fun a => decide (a.guild_id = G)) cursor = none :=
    anchorCloseTime_none m _ cursor (fun x hx hxc => by simpa using hother x hx hxc)
  constructor
  · rw [GetByGuild_after m G N cursor uuid.Nil hc, hnone]
    simp [closeTimeGt, orderByCloseTimeDesc]
  · rw [GetByGuild_before m G N cursor hc, hnone]
    simp [closeTimeLt, orderByCloseTimeDesc]

/-- Claim C3 at a failing input: the cursors 2 and 3 name archives of user 7 in
guild 2; `GetByMember` for guild 1 and user 7 resolves them all the same and
returns the archive of guild 1, through `after` and through `before`. -/
theorem GetByMember_anchor_of_other_guild_not_empty :
    UniqueIds exMemberTable ∧
    exMemberTable[1]? = some ⟨2, 2, 7, 10⟩ ∧ exMemberTable[2]? = some ⟨3, 2, 7, 90⟩ ∧
    ModmailArchiveTable.GetByMember exMemberTable 1 7 10 2 uuid.Nil =
      ([⟨1, 1, 7, ⟨50000, 0⟩⟩], none) ∧
    ModmailArchiveTable.GetByMember exMemberTable 1 7 10 uuid.Nil 3 =
      ([⟨1, 1, 7, ⟨50000, 0⟩⟩], none) ∧
    (ModmailArchiveTable.GetByMember exMemberTable 1 7 10 2 uuid.Nil).1 ≠ [] ∧
    (ModmailArchiveTable.GetByMember exMemberTable 1 7 10 uuid.Nil 3).1 ≠ [] := by
  decide

/-! ## The association store -/

theorem Insert_of_present (p : MultiPanelTargets) (m : Int) (q : Nat) (h : (m, q) ∈ p.rows) :
    MultiPanelTargets.Insert p m q = (p, none) := by
  simp [MultiPanelTargets.Insert, h]

theorem Insert_of_new (p : MultiPanelTargets) (m : Int) (q : Nat) (h : (m, q) ∉ p.rows)
    (hm : m ∈ p.multi_panels) (hq : q ∈ p.panels) :
    MultiPanelTargets.Insert p m q = (⟨p.multi_panels, p.panels, p.rows ++ [(m, q)]⟩, none) := by
  simp [MultiPanelTargets.Insert, h, hm, hq]

theorem Insert_of_rejected (p : MultiPanelTargets) (m : Int) (q : Nat) (h : (m, q) ∉ p.rows)
    (hfk : ¬ (m ∈ p.multi_panels ∧ q ∈ p.panels)) :
    MultiPanelTargets.Insert p m q = (p, some PgError.foreignKeyViolation) := by
  simp only [MultiPanelTargets.Insert, h, hfk, if_false]

theorem Insert_rows (p : MultiPanelTargets) (m : Int) (q : Nat) :
    (MultiPanelTargets.Insert p m q).1.rows = p.rows ∨
    ((m, q) ∉ p.rows ∧ (MultiPanelTargets.Insert p m q).1.rows = p.rows ++ [(m, q)]) := by
  by_cases h : (m, q) ∈ p.rows
  · left; rw [Insert_of_present p m q h]
  · by_cases hfk : m ∈ p.multi_panels ∧ q ∈ p.panels
    · right; rw [Insert_of_new p m q h hfk.1 hfk.2]; exact ⟨h, rfl⟩
    · left; rw [Insert_of_rejected p m q h hfk]

theorem Insert_unique (p : MultiPanelTargets) (m : Int) (q : Nat) (hu : UniquePairs p) :
    UniquePairs (MultiPanelTargets.Insert p m q).1 := by
  unfold UniquePairs at hu ⊢
  rcases Insert_rows p m q with h | ⟨hnew, h⟩
  · rw [h]; exact hu
  · rw [h]
    refine List.Nodup.append hu (List.nodup_singleton _) ?_
    intro x hx hx2
    rw [List.mem_singleton] at hx2
    exact hnew (hx2 ▸ hx)

theorem Insert_count_other (p : MultiPanelTargets) (m : Int) (q : Nat) (pair : Int × Nat)
    (hne : pair ≠ (m, q)) :
    occurrences (MultiPanelTargets.Insert p m q).1 pair = occurrences p pair := by
  unfold occurrences
  rcases Insert_rows p m q with h | ⟨_, h⟩
  · rw [h]
  · rw [h, List.countP_append]
    have : List.countP (fun row => decide (row = pair)) [(m, q)] = 0 := by
      rw [List.countP_eq_zero]
      intro x hx
      rw [List.mem_singleton] at hx
      subst hx
      simpa using Ne.symm hne
    omega

theorem occurrences_of_mem (p : MultiPanelTargets) (pair : Int × Nat) (hu : UniquePairs p)
    (h : pair ∈ p.rows) : occurrences p pair = 1 := by
  unfold occurrences
  unfold UniquePairs at hu
  generalize p.rows = l at hu h
  induction l with
  | nil => cases h
  | cons x t ih =>
    rw [List.nodup_cons] at hu
    by_cases hx : x = pair
    · subst hx
      have hz : List.countP (fun row => decide (row = x)) t = 0 := by
        rw [List.countP_eq_zero]
        intro y hy
        have : y ≠ x := fun hyx => hu.1 (hyx ▸ hy)
        simpa using this
      rw [List.countP_cons_of_pos _ _ (by simp), hz]
    · have ht : pair ∈ t := by
        rcases List.mem_cons.1 h with h1 | h1
        · exact absurd h1.symm hx
        · exact h1
      rw [List.countP_cons_of_neg _ _ (by simpa using hx)]
      exact ih hu.2 ht

/-- Claim C8, as amended: `Insert`, `Delete` and `DeleteAll` keep the pairs unique;
when the pair is already stored, or `m` and `p` exist in the tables that the
foreign keys reference, two `Insert`s of the pair succeed and leave it present
exactly once; when neither holds the insert is rejected and the store is
unchanged; in every case the second `Insert` changes nothing and all other
pairs are as before. -/
theorem association_pairs_stay_unique (s : MultiPanelTargets) (m : Int) (p : Nat)
    (hu : UniquePairs s) :
    UniquePairs (MultiPanelTargets.Insert s m p).1 ∧
    UniquePairs (MultiPanelTargets.Delete s m p).1 ∧
    UniquePairs (MultiPanelTargets.DeleteAll s m).1 ∧
    (((m, p) ∈ s.rows ∨ (m ∈ s.multi_panels ∧ p ∈ s.panels)) →
      (MultiPanelTargets.Insert s m p).2 = none ∧
      (MultiPanelTargets.Insert (MultiPanelTargets.Insert s m p).1 m p).2 = none ∧
      occurrences (MultiPanelTargets.Insert (MultiPanelTargets.Insert s m p).1 m p).1 (m, p) = 1) ∧
    (¬ ((m, p) ∈ s.rows ∨ (m ∈ s.multi_panels ∧ p ∈ s.panels)) →
      MultiPanelTargets.Insert s m p = (s, some PgError.foreignKeyViolation)) ∧
    (MultiPanelTargets.Insert (MultiPanelTargets.Insert s m p).1 m p).1 =
      (MultiPanelTargets.Insert s m p).1 ∧
    (∀ pair : Int × Nat, pair ≠ (m, p) →
      occurrences (MultiPanelTargets.Insert (MultiPanelTargets.Insert s m p).1 m p).1 pair =
        occurrences s pair) := by
  have hu1 := Insert_unique s m p hu
  refine ⟨hu1, ?_, ?_, ?_, ?_, ?_, ?_⟩
  · exact List.Nodup.filter _ hu
  · exact List.Nodup.filter _ hu
  · intro hok
    have hstored : (m, p) ∈ (MultiPanelTargets.Insert s m p).1.rows ∧
        (MultiPanelTargets.Insert s m p).2 = none := by
      by_cases h : (m, p) ∈ s.rows
      · rw [Insert_of_present s m p h]; exact ⟨h, rfl⟩
      · rcases hok with h2 | h2
        · exact absurd h2 h
        · rw [Insert_of_new s m p h h2.1 h2.2]; exact ⟨by simp, rfl⟩
    rw [Insert_of_present _ m p hstored.1]
    exact ⟨hstored.2, rfl, occurrences_of_mem _ (m, p) hu1 hstored.1⟩
  · intro hno
    rw [not_or] at hno
    exact Insert_of_rejected s m p hno.1 hno.2
  · by_cases h : (m, p) ∈ s.rows
    · rw [Insert_of_present s m p h, Insert_of_present s m p h]
    · by_cases hfk : m ∈ s.multi_panels ∧ p ∈ s.panels
      · rw [Insert_of_new s m p h hfk.1 hfk.2]
        exact congrArg Prod.fst (Insert_of_present _ m p (by simp))
      · rw [Insert_of_rejected s m p h hfk, Insert_of_rejected s m p h hfk]
  · intro pair hne
    rw [Insert_count_other _ m p pair hne, Insert_count_other s m p pair hne]

theorem association_pairs_stay_unique_witness :
    UniquePairs (MultiPanelTargets.Insert exTargets 2 200).1 ∧
    occurrences (MultiPanelTargets.Insert (MultiPanelTargets.Insert exTargets 2 200).1 2 200).1
      (2, 200) = 1 :=
  ⟨(association_pairs_stay_unique exTargets 2 200 (by decide)).1,
   ((association_pairs_stay_unique exTargets 2 200 (by decide)).2.2.2.1
      (Or.inr (by decide))).2.2⟩

/-- Claim C8, as stated, fails: in a store where multi-panel 5 and panel 9 do not
exist, the foreign keys of the schema reject `Insert 5 9`, so after two
`Insert`s the pair is present zero times. -/
theorem Insert_twice_without_parents_stores_nothing :
    UniquePairs exNoParents ∧
    MultiPanelTargets.Insert exNoParents 5 9 = (exNoParents, some PgError.foreignKeyViolation) ∧
    occurrences (MultiPanelTargets.Insert (MultiPanelTargets.Insert exNoParents 5 9).1 5 9).1
      (5, 9) = 0 ∧
    occurrences (MultiPanelTargets.Insert (MultiPanelTargets.Insert exNoParents 5 9).1 5 9).1
      (5, 9) ≠ 1 := by
  decide
